import Mathlib

/-!
Verification of the ParallelIR caching retrieval pipeline.

The embedded program is the manual TF-IDF retrieval code of
src/notebooks/information-retrieval.ipynb:

  query_cache = .. empty dict ..
  def retrieve_with_cache(query_text, top_k=10):
      if query_text in query_cache:
          return query_cache[query_text]
      query_vec = tfidf_vectorizer.transform([query_text])
      cos_sim = cosine_similarity(query_vec, tfidf_matrix).flatten()
      top_doc_indices = np.argsort(cos_sim)[::-1][:top_k]
      results = [(doc_ids[i], cos_sim[i]) for i in top_doc_indices]
      query_cache[query_text] = results
      return results

Modelling conventions.

1. Scores: numpy float64 similarity values are modelled as exact rationals.
   Every concrete corpus used below has a one-term vocabulary, for which the
   sklearn TF-IDF cosine values are exactly 0 or 1, so the rational model is
   exact on all inputs exercised by the theorems.

2. The ambient fitted objects tfidf_vectorizer and tfidf_matrix (produced by
   external sklearn code, or loaded opaquely from cache/ by joblib in the
   notebook) are modelled by a snapshot structure carrying doc_ids and the
   composite map
     cos_sim q = cosine_similarity(tfidf_vectorizer.transform([q]),
                                   tfidf_matrix).flatten()
   as a function from the query string to the per-document score column,
   together with the matrix-shape invariant that the column has one entry
   per corpus document.

3. np.argsort uses an unstable introsort by default, which coincides with the
   stable order (ascending value, ties by ascending position) on the short
   arrays considered here, since numpy falls back to insertion sort on short
   runs; we model argsort as the sort by the lexicographic key
   (value, original index), which is exactly that stable order.

4. The Python dict query_cache is modelled as an insertion-ordered
   association list with unique keys; dict membership test plus subscript
   read is List.lookup, and dict subscript assignment is dictInsert below.

5. The global mutable cache is passed in and returned explicitly; the third
   component of the returned triple records whether the scoring computation
   (transform plus cosine_similarity) ran, the call-count probe used to
   state at-most-once-computation properties.
-/

namespace ParallelIR

/-- Ranked result: ordered list of (doc_id, score) pairs as built by the
list comprehension in retrieve_with_cache. -/
abbrev RankedResult := List (String × ℚ)

/-- Model of the Python dict query_cache: insertion-ordered association
list from the raw query text to its stored ranked result. -/
abbrev Cache := List (String × RankedResult)

/-- Model of dict subscript assignment d[k] = v: overwrite in place when the
key is present, append otherwise. -/
def dictInsert (c : Cache) (k : String) (v : RankedResult) : Cache :=
  match c with
  | [] => [(k, v)]
  | (k₀, v₀) :: rest => if k₀ = k then (k, v) :: rest else (k₀, v₀) :: dictInsert rest k v

/-- Comparison key of the modelled np.argsort: ascending value, ties by
ascending original index (the stable sort order, item 3 of the header). -/
def argsortLE (a b : ℕ × ℚ) : Prop := a.2 < b.2 ∨ (a.2 = b.2 ∧ a.1 ≤ b.1)

instance : DecidableRel argsortLE := fun a b => by unfold argsortLE; infer_instance

instance : IsTotal (ℕ × ℚ) argsortLE := by
  constructor
  intro a b
  rcases lt_trichotomy a.2 b.2 with h | h | h
  · exact Or.inl (Or.inl h)
  · rcases Nat.le_total a.1 b.1 with h1 | h1
    · exact Or.inl (Or.inr ⟨h, h1⟩)
    · exact Or.inr (Or.inr ⟨h.symm, h1⟩)
  · exact Or.inr (Or.inl h)

instance : IsTrans (ℕ × ℚ) argsortLE := by
  constructor
  intro a b c hab hbc
  rcases hab with h1 | ⟨h1, h1i⟩
  · rcases hbc with h2 | ⟨h2, _⟩
    · exact Or.inl (h1.trans h2)
    · exact Or.inl (h2 ▸ h1)
  · rcases hbc with h2 | ⟨h2, h2i⟩
    · exact Or.inl (h1 ▸ h2)
    · exact Or.inr ⟨h1.trans h2, h1i.trans h2i⟩

/-- Index-value pairs of the score column, sorted by the argsort key. -/
def argsortPairs (xs : List ℚ) : List (ℕ × ℚ) :=
  List.insertionSort argsortLE xs.enum

/-- Model of np.argsort(xs): positions of xs sorted by ascending value,
ties by ascending position. -/
def argsort (xs : List ℚ) : List ℕ :=
  (argsortPairs xs).map Prod.fst

/-- Model of the Python slice a[:k] for an arbitrary integer k: a
nonnegative stop clamps to the length, a negative stop counts from the end
and clamps at zero. -/
def pySlice {α : Type} (xs : List α) (k : ℤ) : List α :=
  if 0 ≤ k then xs.take k.toNat else xs.take (xs.length + k).toNat

/-- Snapshot of the ambient fitted retrieval state (item 2 of the header):
the corpus document identifiers, the composite scoring map
q maps to cosine_similarity(transform([q]), tfidf_matrix).flatten(), and the
shape invariant that the score column has one entry per document. -/
structure TfidfIndex where
  doc_ids : List String
  cos_sim : String → List ℚ
  cos_sim_length : ∀ q, (cos_sim q).length = doc_ids.length

/-- Shallow embedding of retrieve_with_cache, with the global dict passed
explicitly and returned, plus the computed-flag probe (item 5): on a cache
hit the stored value is returned and the cache is untouched; on a miss the
score column is computed, argsorted descending, sliced to top_k, projected
to (doc_id, score) pairs, stored under the raw query text and returned. -/
def retrieve_with_cache (idx : TfidfIndex) (query_cache : Cache)
    (query_text : String) (top_k : ℤ) : RankedResult × Cache × Bool :=
  match query_cache.lookup query_text with
  | some cached => (cached, query_cache, false)
  | none =>
      let cos_sim := idx.cos_sim query_text
      let top_doc_indices := pySlice (argsort cos_sim).reverse top_k
      let results := top_doc_indices.map fun i => (idx.doc_ids.getD i "", cos_sim.getD i 0)
      (results, dictInsert query_cache query_text results, true)

/-- Model of the sklearn TfidfVectorizer default analyzer applied to a raw
text: lowercase the character sequence, split on characters outside the
word class, and keep maximal word-character runs of length at least two
(the default token pattern). The stop-word filter applied at fit time never
matters below because no corpus token used in the theorems is an English
stop word. -/
def tokenize (text : String) : List String :=
  (((text.data.map Char.toLower).splitOnP (fun c => !(c.isAlphanum || c == '_'))).filter
      (fun t => 2 ≤ t.length)).map List.asString

/-- Score column of the corpus [d1 := "the cat"]. Derivation from the
sklearn formulas: the fitted vocabulary is the single term cat (the is an
English stop word and is removed at fit time), so every document row and
every query vector is one-dimensional; l2 normalization sends any positive
one-dimensional vector to 1 and leaves the zero vector at 0 (sklearn
cosine_similarity substitutes norm 1 for zero rows). Hence the cosine of a
query against d1 is 1 when the query contains the token cat and 0
otherwise, exactly. -/
def cosSimCat (q : String) : List ℚ :=
  if "cat" ∈ tokenize q then [1] else [0]

/-- Index snapshot built from the one-document corpus [d1 := "the cat"]. -/
def idxCat : TfidfIndex where
  doc_ids := ["d1"]
  cos_sim := cosSimCat
  cos_sim_length := by intro q; unfold cosSimCat; split <;> rfl

/-- Score column of the corpus [d1 := "the cat", d2 := "the cat cat"]. Same
derivation as cosSimCat: vocabulary is the single term cat, both document
rows are positive multiples of the unit vector, so both normalize to 1, and
the cosine column is [1, 1] for a query containing cat and [0, 0]
otherwise, exactly. -/
def cosSimCatCat (q : String) : List ℚ :=
  if "cat" ∈ tokenize q then [1, 1] else [0, 0]

/-- Index snapshot built from the corpus [d1 := "the cat", d2 := "the cat cat"]
in that order. -/
def idxCatCat : TfidfIndex where
  doc_ids := ["d1", "d2"]
  cos_sim := cosSimCatCat
  cos_sim_length := by intro q; unfold cosSimCatCat; split <;> rfl

/-- Index snapshot built from the same two documents fed in the opposite
order [d2 := "the cat cat", d1 := "the cat"]: the fitted vocabulary and the
normalized rows are unchanged (both rows normalize to 1), so the score
column function is the same, while the doc_ids list is permuted. -/
def idxCatCatSwap : TfidfIndex where
  doc_ids := ["d2", "d1"]
  cos_sim := cosSimCatCat
  cos_sim_length := by intro q; unfold cosSimCatCat; split <;> rfl

/-- Value of the miss branch of retrieve_with_cache: the results list built
by the comprehension over top_doc_indices. -/
def freshResults (idx : TfidfIndex) (query_text : String) (top_k : ℤ) : RankedResult :=
  (pySlice (argsort (idx.cos_sim query_text)).reverse top_k).map
    fun i => (idx.doc_ids.getD i "", (idx.cos_sim query_text).getD i 0)

/-- Index-score pairs underlying the miss branch: the argsorted pair list,
reversed and sliced to top_k. -/
def rankedPairs (idx : TfidfIndex) (query_text : String) (top_k : ℤ) : List (ℕ × ℚ) :=
  pySlice (argsortPairs (idx.cos_sim query_text)).reverse top_k

theorem lookup_dictInsert_self (c : Cache) (k : String) (v : RankedResult) :
    List.lookup k (dictInsert c k v) = some v := by
  induction c with
  | nil => simp [dictInsert, List.lookup]
  | cons hd tl ih =>
      obtain ⟨k₀, v₀⟩ := hd
      by_cases hk : k₀ = k
      · subst hk
        simp [dictInsert, List.lookup]
      · have hbeq : (k == k₀) = false := by
          rw [beq_eq_false_iff_ne]
          exact fun h => hk h.symm
        simp [dictInsert, if_neg hk, List.lookup, hbeq, ih]

theorem dictInsert_of_lookup_none (c : Cache) (k : String) (v : RankedResult)
    (h : List.lookup k c = none) : dictInsert c k v = c ++ [(k, v)] := by
  induction c with
  | nil => rfl
  | cons hd tl ih =>
      obtain ⟨k₀, v₀⟩ := hd
      by_cases hk : k₀ = k
      · exfalso
        subst hk
        simp [List.lookup] at h
      · have hbeq : (k == k₀) = false := by
          rw [beq_eq_false_iff_ne]
          exact fun h1 => hk h1.symm
        simp only [List.lookup, hbeq] at h
        simp [dictInsert, if_neg hk, ih h]

theorem retrieve_hit (idx : TfidfIndex) (c : Cache) (q : String) (k : ℤ)
    (r : RankedResult) (h : List.lookup q c = some r) :
    retrieve_with_cache idx c q k = (r, c, false) := by
  simp [retrieve_with_cache, h]

theorem retrieve_miss (idx : TfidfIndex) (c : Cache) (q : String) (k : ℤ)
    (h : List.lookup q c = none) :
    retrieve_with_cache idx c q k =
      (freshResults idx q k, c ++ [(q, freshResults idx q k)], true) := by
  simp [retrieve_with_cache, h, dictInsert_of_lookup_none c q _ h, freshResults]

theorem argsortPairs_perm_enum (xs : List ℚ) : (argsortPairs xs).Perm xs.enum :=
  List.perm_insertionSort argsortLE xs.enum

theorem argsort_perm_range (xs : List ℚ) : (argsort xs).Perm (List.range xs.length) := by
  have h := (argsortPairs_perm_enum xs).map Prod.fst
  rw [List.enum_map_fst] at h
  exact h

theorem length_argsort (xs : List ℚ) : (argsort xs).length = xs.length := by
  rw [(argsort_perm_range xs).length_eq, List.length_range]

theorem mem_argsort_lt (xs : List ℚ) (i : ℕ) (h : i ∈ argsort xs) : i < xs.length := by
  have := (argsort_perm_range xs).mem_iff.mp h
  exact List.mem_range.mp this

theorem mem_argsortPairs (xs : List ℚ) (p : ℕ × ℚ) (h : p ∈ argsortPairs xs) :
    p.1 < xs.length ∧ p.2 = xs.getD p.1 0 := by
  have hmem : p ∈ xs.enum := (argsortPairs_perm_enum xs).mem_iff.mp h
  obtain ⟨i, x⟩ := p
  have := List.mem_enum hmem
  exact ⟨this.1, by rw [List.getD_eq_getElem xs 0 this.1]; exact this.2⟩

theorem pySlice_sublist {α : Type} (xs : List α) (k : ℤ) : (pySlice xs k).Sublist xs := by
  unfold pySlice
  split <;> exact List.take_sublist _ _

theorem pySlice_map {α β : Type} (f : α → β) (xs : List α) (k : ℤ) :
    pySlice (xs.map f) k = (pySlice xs k).map f := by
  unfold pySlice
  rw [List.length_map]
  split <;> rw [List.map_take]

theorem length_pySlice_of_nonneg {α : Type} (xs : List α) (k : ℤ) (hk : 0 ≤ k) :
    (pySlice xs k).length = min k.toNat xs.length := by
  unfold pySlice
  rw [if_pos hk, List.length_take]

theorem length_pySlice_of_neg {α : Type} (xs : List α) (k : ℤ) (hk : k < 0) :
    (pySlice xs k).length = ((xs.length : ℤ) + k).toNat := by
  unfold pySlice
  rw [if_neg (not_le.mpr hk), List.length_take]
  omega

theorem pySlice_of_length_le {α : Type} (xs : List α) (k : ℤ)
    (hk : (xs.length : ℤ) ≤ k) : pySlice xs k = xs := by
  have h0 : 0 ≤ k := le_trans (Int.ofNat_nonneg _) hk
  unfold pySlice
  rw [if_pos h0]
  exact List.take_of_length_le (by omega)

theorem freshResults_length (idx : TfidfIndex) (q : String) (k : ℤ) (hk : 0 ≤ k) :
    (freshResults idx q k).length = min k.toNat idx.doc_ids.length := by
  unfold freshResults
  rw [List.length_map, length_pySlice_of_nonneg _ _ hk, List.length_reverse,
    length_argsort, idx.cos_sim_length]

theorem argsort_eq_map_fst (xs : List ℚ) : argsort xs = (argsortPairs xs).map Prod.fst := rfl

theorem freshResults_eq_rankedPairs_map (idx : TfidfIndex) (q : String) (k : ℤ) :
    freshResults idx q k =
      (rankedPairs idx q k).map fun p => (idx.doc_ids.getD p.1 "", p.2) := by
  unfold freshResults rankedPairs
  rw [argsort_eq_map_fst, ← List.map_reverse, pySlice_map, List.map_map]
  refine List.map_congr_left ?_
  intro p hp
  have hmem : p ∈ argsortPairs (idx.cos_sim q) := by
    have h1 := (pySlice_sublist ((argsortPairs (idx.cos_sim q)).reverse) k).subset hp
    exact List.mem_reverse.mp h1
  have h2 := mem_argsortPairs _ p hmem
  simp only [Function.comp_apply]
  rw [← h2.2]

theorem rankedPairs_pairwise (idx : TfidfIndex) (q : String) (k : ℤ) :
    List.Pairwise (fun a b => argsortLE b a) (rankedPairs idx q k) := by
  have hs : List.Pairwise argsortLE (argsortPairs (idx.cos_sim q)) :=
    List.sorted_insertionSort argsortLE _
  have hr : List.Pairwise (fun a b => argsortLE b a)
      ((argsortPairs (idx.cos_sim q)).reverse) := List.pairwise_reverse.mpr hs
  exact List.Pairwise.sublist (pySlice_sublist _ _) hr

theorem freshResults_perm_zip (idx : TfidfIndex) (q : String) (k : ℤ)
    (hk : (idx.doc_ids.length : ℤ) ≤ k) :
    (freshResults idx q k).Perm (idx.doc_ids.zip (idx.cos_sim q)) := by
  have hlen : ((argsort (idx.cos_sim q)).reverse.length : ℤ) ≤ k := by
    rw [List.length_reverse, length_argsort, idx.cos_sim_length]
    exact hk
  unfold freshResults
  rw [pySlice_of_length_le _ _ hlen]
  have h1 : ((argsort (idx.cos_sim q)).reverse).Perm (List.range idx.doc_ids.length) := by
    have h0 := argsort_perm_range (idx.cos_sim q)
    rw [idx.cos_sim_length] at h0
    exact (List.reverse_perm _).trans h0
  have h2 := h1.map (fun i => (idx.doc_ids.getD i "", (idx.cos_sim q).getD i 0))
  have h3 : (List.range idx.doc_ids.length).map
      (fun i => (idx.doc_ids.getD i "", (idx.cos_sim q).getD i 0)) =
      idx.doc_ids.zip (idx.cos_sim q) := by
    refine List.ext_getElem ?_ ?_
    · rw [List.length_map, List.length_range, List.length_zip, idx.cos_sim_length, min_self]
    · intro n h₁ h₂
      have hn : n < idx.doc_ids.length := by
        rw [List.length_map, List.length_range] at h₁
        exact h₁
      have hc : n < (idx.cos_sim q).length := by
        rw [idx.cos_sim_length]
        exact hn
      rw [List.getElem_map, List.getElem_range, List.getElem_zip,
        List.getD_eq_getElem _ _ hn, List.getD_eq_getElem _ _ hc]
  rw [h3] at h2
  exact h2

/-- C1 is refuted on the code: the cache key is the raw query text alone, so
two calls with the same text but different k values share one entry. Here
the first call with top_k = 1 stores a one-element result; the second call
with top_k = 2 is served that stored one-element result, while a genuine
top_k = 2 computation returns a different (two-element) result — the second
call receives a result computed for a different k. -/
theorem cache_key_ignores_k_counterexample :
    (retrieve_with_cache idxCatCat [] "cat" 1).1.length = 1 ∧
    (retrieve_with_cache idxCatCat
        ((retrieve_with_cache idxCatCat [] "cat" 1).2.1) "cat" 2).1 =
      (retrieve_with_cache idxCatCat [] "cat" 1).1 ∧
    (retrieve_with_cache idxCatCat [] "cat" 2).1 ≠
      (retrieve_with_cache idxCatCat [] "cat" 1).1 := by decide

/-- C1 (amended): the cache key comprises the raw query text only — neither
k nor the scorer identity is part of it. Whenever the text is present in
the cache, the call returns the stored entry for every value of top_k, so
calls with the same text and distinct k values use the same cache entry. -/
theorem cache_key_is_query_text_only (idx : TfidfIndex) (c : Cache) (q : String)
    (k₁ k₂ : ℤ) (r : RankedResult) (h : List.lookup q c = some r) :
    retrieve_with_cache idx c q k₁ = (r, c, false) ∧
    retrieve_with_cache idx c q k₂ = (r, c, false) :=
  ⟨retrieve_hit idx c q k₁ r h, retrieve_hit idx c q k₂ r h⟩

theorem cache_key_is_query_text_only_witness :
    retrieve_with_cache idxCatCat [("cat", [("d2", (1 : ℚ))])] "cat" 5 =
      ([("d2", 1)], [("cat", [("d2", 1)])], false) ∧
    retrieve_with_cache idxCatCat [("cat", [("d2", (1 : ℚ))])] "cat" 2 =
      ([("d2", 1)], [("cat", [("d2", 1)])], false) :=
  cache_key_is_query_text_only idxCatCat _ "cat" 5 2 _ rfl

/-- C2 is refuted on the code: retrieval scores the whole corpus, not the
union of postings lists. For the corpus [d1 := "the cat"], the query "dog"
shares no term with any document (its score column is identically zero),
yet the call returns the one-element result [(d1, 0)], not an empty one. -/
theorem oov_query_nonempty_counterexample :
    (∀ t ∈ tokenize "dog", t ∉ tokenize "the cat") ∧
    idxCat.cos_sim "dog" = [0] ∧
    (retrieve_with_cache idxCat [] "dog" 10).1 = [("d1", 0)] := by decide

/-- C2 (amended): the scorer runs over the entire corpus. On a cache miss
with top_k at least 1 against a nonempty corpus, a query whose score column
is identically zero (an out-of-vocabulary query) still yields a nonempty
result of length min(top_k, corpus size) whose scores are all zero — no
error and no empty result. -/
theorem full_corpus_scored_oov_zero (idx : TfidfIndex) (c : Cache) (q : String)
    (k : ℤ) (h : List.lookup q c = none)
    (hz : idx.cos_sim q = List.replicate idx.doc_ids.length 0)
    (hk : 1 ≤ k) (hN : 1 ≤ idx.doc_ids.length) :
    (retrieve_with_cache idx c q k).1.length = min k.toNat idx.doc_ids.length ∧
    (retrieve_with_cache idx c q k).1 ≠ [] ∧
    ∀ p ∈ (retrieve_with_cache idx c q k).1, p.2 = 0 := by
  rw [retrieve_miss idx c q k h]
  refine ⟨freshResults_length idx q k (by omega), ?_, ?_⟩
  · have hlen := freshResults_length idx q k (by omega)
    have hpos : 0 < min k.toNat idx.doc_ids.length := by omega
    exact List.ne_nil_of_length_pos (hlen ▸ hpos)
  · intro p hp
    unfold freshResults at hp
    obtain ⟨i, _, hpe⟩ := List.mem_map.mp hp
    rw [← hpe]
    dsimp only
    rw [hz]
    rcases lt_or_ge i idx.doc_ids.length with hlt | hge
    · rw [List.getD_eq_getElem _ _ (by rw [List.length_replicate]; exact hlt)]
      simp
    · exact List.getD_eq_default _ _ (by rw [List.length_replicate]; exact hge)

theorem full_corpus_scored_oov_zero_witness :
    (retrieve_with_cache idxCat [] "dog" 10).1.length =
      min (10 : ℤ).toNat idxCat.doc_ids.length ∧
    (retrieve_with_cache idxCat [] "dog" 10).1 ≠ [] ∧
    ∀ p ∈ (retrieve_with_cache idxCat [] "dog" 10).1, p.2 = 0 :=
  full_corpus_scored_oov_zero idxCat [] "dog" 10 rfl (by decide) (by decide) (by decide)

/-- C3 is refuted on the code: ties are emitted in descending corpus
position order (np.argsort is ascending and stable, and the ranking
reverses it), not ascending doc_id order. For the corpus with tied scores
on d1 and d2, the result lists d2 before d1 although both scores are equal
and d1 precedes d2 in the doc_id order (compared lexicographically on the
character sequences). -/
theorem tie_order_not_ascending_docid_counterexample :
    (retrieve_with_cache idxCatCat [] "cat" 2).1 = [("d2", 1), ("d1", 1)] ∧
    ¬ List.Pairwise (fun a b : String × ℚ => a.2 = b.2 → a.1.data ≤ b.1.data)
        (retrieve_with_cache idxCatCat [] "cat" 2).1 := by decide

/-- C3 (amended): on a cache miss the result is the ranking by descending
score with ties broken by descending corpus position, i.e. the list of
(doc_id, score) pairs read off the position-score pairs sorted so that a
later entry has a strictly smaller score or an equal score and a position
at most as large; in particular the returned scores are weakly
descending. -/
theorem ranking_sorted_desc_ties_by_position (idx : TfidfIndex) (c : Cache)
    (q : String) (k : ℤ) (h : List.lookup q c = none) :
    (retrieve_with_cache idx c q k).1 =
      (rankedPairs idx q k).map (fun p => (idx.doc_ids.getD p.1 "", p.2)) ∧
    List.Pairwise (fun a b => argsortLE b a) (rankedPairs idx q k) ∧
    List.Pairwise (fun a b : String × ℚ => b.2 ≤ a.2)
      (retrieve_with_cache idx c q k).1 := by
  rw [retrieve_miss idx c q k h]
  refine ⟨freshResults_eq_rankedPairs_map idx q k, rankedPairs_pairwise idx q k, ?_⟩
  show List.Pairwise _ (freshResults idx q k)
  rw [freshResults_eq_rankedPairs_map idx q k, List.pairwise_map]
  refine (rankedPairs_pairwise idx q k).imp ?_
  intro a b hab
  rcases hab with h1 | ⟨h1, _⟩
  · exact le_of_lt h1
  · exact le_of_eq h1

theorem ranking_sorted_desc_ties_by_position_witness :
    (retrieve_with_cache idxCatCat [] "cat" 2).1 =
      (rankedPairs idxCatCat "cat" 2).map
        (fun p => (idxCatCat.doc_ids.getD p.1 "", p.2)) ∧
    List.Pairwise (fun a b => argsortLE b a) (rankedPairs idxCatCat "cat" 2) ∧
    List.Pairwise (fun a b : String × ℚ => b.2 ≤ a.2)
      (retrieve_with_cache idxCatCat [] "cat" 2).1 :=
  ranking_sorted_desc_ties_by_position idxCatCat [] "cat" 2 rfl

/-- C4 is refuted on the code: there is no validation of top_k and no
InputError path at all. top_k = 0 returns normally with an empty result
(and still runs and caches the computation), and top_k = -1 returns a
partial ranking (all but the last document) instead of failing. -/
theorem k_nonpositive_no_error_counterexample :
    (retrieve_with_cache idxCatCat [] "cat" 0).1 = [] ∧
    (retrieve_with_cache idxCatCat [] "cat" 0).2.2 = true ∧
    (retrieve_with_cache idxCatCat [] "cat" (-1)).1 = [("d2", 1)] := by decide

/-- C4 (amended): retrieve_with_cache never rejects a nonpositive top_k: on
a cache miss it returns normally, with an empty list for top_k = 0 and,
for negative top_k, the ranking with the last abs(top_k) entries dropped
(Python slice semantics), the scoring computation having run either way. -/
theorem k_nonpositive_returns_sliced_result (idx : TfidfIndex) (c : Cache)
    (q : String) (k : ℤ) (h : List.lookup q c = none) (hk : k ≤ 0) :
    (retrieve_with_cache idx c q k).2.2 = true ∧
    (retrieve_with_cache idx c q k).1.length =
      if k = 0 then 0 else ((idx.doc_ids.length : ℤ) + k).toNat := by
  rw [retrieve_miss idx c q k h]
  refine ⟨rfl, ?_⟩
  show (freshResults idx q k).length = _
  unfold freshResults
  rw [List.length_map]
  rcases eq_or_lt_of_le hk with he | hlt
  · rw [if_pos he, he, length_pySlice_of_nonneg _ _ le_rfl]
    simp
  · rw [if_neg (by omega), length_pySlice_of_neg _ _ hlt, List.length_reverse,
      length_argsort, idx.cos_sim_length]

theorem k_nonpositive_returns_sliced_result_witness :
    (retrieve_with_cache idxCatCat [] "cat" (-1)).2.2 = true ∧
    (retrieve_with_cache idxCatCat [] "cat" (-1)).1.length =
      if (-1 : ℤ) = 0 then 0 else ((idxCatCat.doc_ids.length : ℤ) + (-1)).toNat :=
  k_nonpositive_returns_sliced_result idxCatCat [] "cat" (-1) rfl (by decide)

/-- C5 is refuted on the code: nothing ties a cache entry to an index
snapshot and a rebuild clears nothing. A result cached against the
one-document snapshot is served unchanged, without recomputation, after
the index is rebuilt over the two-document corpus, although recomputation
against the new snapshot yields a different result. -/
theorem stale_cache_after_rebuild_counterexample :
    (retrieve_with_cache idxCatCat
        ((retrieve_with_cache idxCat [] "cat" 10).2.1) "cat" 10).1 = [("d1", 1)] ∧
    (retrieve_with_cache idxCatCat
        ((retrieve_with_cache idxCat [] "cat" 10).2.1) "cat" 10).2.2 = false ∧
    (retrieve_with_cache idxCatCat [] "cat" 10).1 = [("d2", 1), ("d1", 1)] := by decide

/-- C5 (amended): the cache is never invalidated: a lookup consults only
the query text, so after any rebuild — whatever new index snapshot is in
force — a previously cached key is still served from the old entry, with no
recomputation and the cache unchanged. -/
theorem cache_hit_ignores_index (idxNew : TfidfIndex) (c : Cache) (q : String)
    (k : ℤ) (r : RankedResult) (h : List.lookup q c = some r) :
    retrieve_with_cache idxNew c q k = (r, c, false) := by
  simp [retrieve_with_cache, h]

theorem cache_hit_ignores_index_witness :
    retrieve_with_cache idxCatCat [("cat", [("d1", (1 : ℚ))])] "cat" 10 =
      ([("d1", 1)], [("cat", [("d1", 1)])], false) :=
  cache_hit_ignores_index idxCatCat _ "cat" 10 _ rfl

/-- C6 (confirmed): for any query repeated with the same top_k against the
same index snapshot and with the cache threaded from the first call to the
second, the second call returns the very value the first call returned,
leaves the cache unchanged, and does not run the scoring computation (the
probe flag of the second call is false). -/
theorem repeated_query_served_from_cache (idx : TfidfIndex) (c : Cache)
    (q : String) (k : ℤ) :
    retrieve_with_cache idx ((retrieve_with_cache idx c q k).2.1) q k =
      ((retrieve_with_cache idx c q k).1,
        (retrieve_with_cache idx c q k).2.1, false) := by
  cases h : List.lookup q c with
  | some r =>
      rw [retrieve_hit idx c q k r h]
      exact retrieve_hit idx c q k r h
  | none =>
      rw [retrieve_miss idx c q k h]
      refine retrieve_hit idx _ q k _ ?_
      rw [← dictInsert_of_lookup_none c q _ h]
      exact lookup_dictInsert_self c q _

/-- C7 is refuted on the code: index construction is not order-independent
at the level of Ranked Results. idxCatCat and idxCatCatSwap are the builds
of the same two documents fed in the two orders (both document rows
normalize to the same unit vector, so the fitted score column function is
literally the same, only doc_ids is permuted); the tied documents come back
in opposite orders, so the two Ranked Results are different lists. -/
theorem order_dependence_counterexample :
    (retrieve_with_cache idxCatCat [] "cat" 2).1 = [("d2", 1), ("d1", 1)] ∧
    (retrieve_with_cache idxCatCatSwap [] "cat" 2).1 = [("d1", 1), ("d2", 1)] ∧
    (retrieve_with_cache idxCatCat [] "cat" 2).1 ≠
      (retrieve_with_cache idxCatCatSwap [] "cat" 2).1 := by decide

/-- C7 (amended): order independence holds only up to reordering of ties:
for two index snapshots whose document-score associations are permutations
of each other (as produced by building from a permuted corpus) and a top_k
covering the whole corpus, fresh retrievals return Ranked Results that are
permutations of each other — the same multiset of (doc_id, score) pairs —
but not in general the identical list. -/
theorem retrieval_perm_invariant_multiset (idx₁ idx₂ : TfidfIndex)
    (c₁ c₂ : Cache) (q : String) (k : ℤ)
    (h₁ : List.lookup q c₁ = none) (h₂ : List.lookup q c₂ = none)
    (hk₁ : (idx₁.doc_ids.length : ℤ) ≤ k) (hk₂ : (idx₂.doc_ids.length : ℤ) ≤ k)
    (hperm : (idx₂.doc_ids.zip (idx₂.cos_sim q)).Perm
      (idx₁.doc_ids.zip (idx₁.cos_sim q))) :
    ((retrieve_with_cache idx₂ c₂ q k).1).Perm
      ((retrieve_with_cache idx₁ c₁ q k).1) := by
  rw [retrieve_miss idx₁ c₁ q k h₁, retrieve_miss idx₂ c₂ q k h₂]
  exact ((freshResults_perm_zip idx₂ q k hk₂).trans hperm).trans
    (freshResults_perm_zip idx₁ q k hk₁).symm

theorem retrieval_perm_invariant_multiset_witness :
    ((retrieve_with_cache idxCatCatSwap [] "cat" 2).1).Perm
      ((retrieve_with_cache idxCatCat [] "cat" 2).1) :=
  retrieval_perm_invariant_multiset idxCatCat idxCatCatSwap [] [] "cat" 2
    rfl rfl (by decide) (by decide) (by decide)

/-- C9 (confirmed): on a hit the returned cache is exactly the input cache;
on a miss it is the input cache with the single new entry, keyed by the
queried text, appended at the end. In particular the input cache is always
a sublist of the output cache (no entry is removed or overwritten and every
stored key still maps to its old value) and the entry count never
decreases. -/
theorem cache_frame_condition (idx : TfidfIndex) (c : Cache) (q : String)
    (k : ℤ) :
    (retrieve_with_cache idx c q k).2.1 =
      (match List.lookup q c with
        | some _ => c
        | none => c ++ [(q, (retrieve_with_cache idx c q k).1)]) ∧
    c.Sublist (retrieve_with_cache idx c q k).2.1 ∧
    c.length ≤ (retrieve_with_cache idx c q k).2.1.length := by
  cases h : List.lookup q c with
  | some r =>
      rw [retrieve_hit idx c q k r h]
      exact ⟨rfl, List.Sublist.refl c, le_rfl⟩
  | none =>
      rw [retrieve_miss idx c q k h]
      refine ⟨rfl, List.sublist_append_left c _, ?_⟩
      rw [List.length_append]
      omega

/-- C10 is refuted on the code as stated over every call: a hit returns
whatever was stored, so a call with top_k = 2 that hits an entry stored by
an earlier top_k = 1 call returns a list of length 1, not
min(top_k, corpus size) = 2, although top_k is nonnegative and the doc_ids
are pairwise distinct. -/
theorem result_length_cache_poisoning_counterexample :
    idxCatCat.doc_ids.Nodup ∧ (0 : ℤ) ≤ 2 ∧
    ¬ ((retrieve_with_cache idxCatCat
          ((retrieve_with_cache idxCatCat [] "cat" 1).2.1) "cat" 2).1.length =
        min (2 : ℤ).toNat idxCatCat.doc_ids.length) := by decide

/-- C10 (amended): restricted to cache-miss calls the claim holds: on a
miss with nonnegative top_k against a corpus with pairwise-distinct
doc_ids, the result has length min(top_k, corpus size) and its doc_ids are
pairwise distinct. -/
theorem miss_result_length_and_nodup (idx : TfidfIndex) (c : Cache)
    (q : String) (k : ℤ) (h : List.lookup q c = none) (hk : 0 ≤ k)
    (hnd : idx.doc_ids.Nodup) :
    (retrieve_with_cache idx c q k).1.length = min k.toNat idx.doc_ids.length ∧
    ((retrieve_with_cache idx c q k).1.map Prod.fst).Nodup := by
  rw [retrieve_miss idx c q k h]
  refine ⟨freshResults_length idx q k hk, ?_⟩
  show ((freshResults idx q k).map Prod.fst).Nodup
  unfold freshResults
  rw [List.map_map]
  have hcomp : (Prod.fst ∘ fun i => (idx.doc_ids.getD i "", (idx.cos_sim q).getD i 0)) =
      fun i => idx.doc_ids.getD i "" := rfl
  rw [hcomp]
  have hsub : (pySlice (argsort (idx.cos_sim q)).reverse k).Sublist
      ((argsort (idx.cos_sim q)).reverse) := pySlice_sublist _ _
  have hrev : ((argsort (idx.cos_sim q)).reverse).Nodup := by
    rw [List.nodup_reverse]
    exact (argsort_perm_range _).symm.nodup (List.nodup_range _)
  have hnodupL : (pySlice (argsort (idx.cos_sim q)).reverse k).Nodup :=
    List.Nodup.sublist hsub hrev
  have hmemL : ∀ i ∈ pySlice (argsort (idx.cos_sim q)).reverse k,
      i < idx.doc_ids.length := by
    intro i hi
    have h1 : i ∈ argsort (idx.cos_sim q) := List.mem_reverse.mp (hsub.subset hi)
    have h2 := mem_argsort_lt _ i h1
    rw [idx.cos_sim_length] at h2
    exact h2
  refine List.Nodup.map_on ?_ hnodupL
  intro x hx y hy hxy
  have hxlt := hmemL x hx
  have hylt := hmemL y hy
  rw [List.getD_eq_getElem _ _ hxlt, List.getD_eq_getElem _ _ hylt] at hxy
  have hg : idx.doc_ids.get ⟨x, hxlt⟩ = idx.doc_ids.get ⟨y, hylt⟩ := by
    rw [List.get_eq_getElem, List.get_eq_getElem]
    exact hxy
  exact congrArg Fin.val ((hnd.get_inj_iff).mp hg)

theorem miss_result_length_and_nodup_witness :
    (retrieve_with_cache idxCatCat [] "cat" 2).1.length =
      min (2 : ℤ).toNat idxCatCat.doc_ids.length ∧
    ((retrieve_with_cache idxCatCat [] "cat" 2).1.map Prod.fst).Nodup :=
  miss_result_length_and_nodup idxCatCat [] "cat" 2 rfl (by decide) (by decide)

end ParallelIR
